import Mathlib

set_option maxHeartbeats 1000000
set_option maxRecDepth 4096

-- ==========================================================================
-- Embedding of src/App.js (saktheeswar-max/my-code-editor).
-- The share-link codec is built from the platform primitives btoa/atob
-- (WHATWG forgiving-base64), encodeURIComponent/decodeURIComponent
-- (ECMA-262 percent codec) and URLSearchParams
-- (application/x-www-form-urlencoded parsing).  Those primitives are
-- modelled here byte-for-byte; strings are lists of Unicode scalar values,
-- matching JS strings on the BMP range the codec can transport.
-- ==========================================================================

-- ------------------ base64 alphabet (btoa / atob) ------------------

def b64Char (n : Nat) : Char :=
  if n < 26 then Char.ofNat (65 + n)
  else if n < 52 then Char.ofNat (97 + (n - 26))
  else if n < 62 then Char.ofNat (48 + (n - 52))
  else if n = 62 then '+'
  else '/'

def b64Val (c : Char) : Option Nat :=
  if 'A' ≤ c ∧ c ≤ 'Z' then some (c.toNat - 65)
  else if 'a' ≤ c ∧ c ≤ 'z' then some (c.toNat - 97 + 26)
  else if '0' ≤ c ∧ c ≤ '9' then some (c.toNat - 48 + 52)
  else if c = '+' then some 62
  else if c = '/' then some 63
  else none

-- btoa: 3 input bytes become 4 alphabet chars; a final group of 1 or 2
-- bytes is padded with '='.
def encodeB64 : List Nat → List Char
  | [] => []
  | [b1] => [b64Char (b1 / 4), b64Char (b1 % 4 * 16), '=', '=']
  | [b1, b2] => [b64Char (b1 / 4), b64Char (b1 % 4 * 16 + b2 / 16), b64Char (b2 % 16 * 4), '=']
  | b1 :: b2 :: b3 :: rest =>
      b64Char (b1 / 4) :: b64Char (b1 % 4 * 16 + b2 / 16) ::
      b64Char (b2 % 16 * 4 + b3 / 64) :: b64Char (b3 % 64) :: encodeB64 rest

def isAsciiWs (c : Char) : Bool :=
  c == ' ' || c == '\t' || c == '\n' || c == '\x0c' || c == '\r'

-- forgiving-base64 step: remove one or two trailing padding chars.
def stripPad (cs : List Char) : List Char :=
  if cs.getLast? = some '=' then
    if cs.dropLast.getLast? = some '=' then cs.dropLast.dropLast else cs.dropLast
  else cs

def b64Vals : List Char → Option (List Nat)
  | [] => some []
  | c :: rest => do
      let v ← b64Val c
      let vs ← b64Vals rest
      pure (v :: vs)

-- forgiving-base64 bit reassembly: groups of 4 sextets give 3 bytes; a
-- final group of 2 or 3 sextets gives 1 or 2 bytes (spare bits dropped);
-- a final group of 1 sextet is an error.
def decodeVals : List Nat → Option (List Nat)
  | [] => some []
  | [_] => none
  | [n1, n2] => some [n1 * 4 + n2 / 16]
  | [n1, n2, n3] => some [n1 * 4 + n2 / 16, n2 % 16 * 16 + n3 / 4]
  | n1 :: n2 :: n3 :: n4 :: rest => do
      let bs ← decodeVals rest
      pure ((n1 * 4 + n2 / 16) :: (n2 % 16 * 16 + n3 / 4) :: (n3 % 4 * 64 + n4) :: bs)

-- atob: WHATWG forgiving-base64 decode, then one char per byte.
def atobChars (s : List Char) : Option (List Char) := do
  let ws := s.filter (fun c => !(isAsciiWs c))
  let cs := if ws.length % 4 = 0 then stripPad ws else ws
  if cs.length % 4 = 1 then none
  else do
    let vs ← b64Vals cs
    let bs ← decodeVals vs
    pure (bs.map Char.ofNat)

-- btoa: fails (InvalidCharacterError) on any char above U+00FF, else
-- base64 of the chars read as bytes.
def btoaChars (s : List Char) : Option (List Char) :=
  if s.all (fun c => c.toNat < 256) then some (encodeB64 (s.map Char.toNat)) else none

-- Proof scaffolding: the padding-free part of a base64 encoding, and the
-- sextet stream it denotes.
def b64Body : List Nat → List Char
  | [] => []
  | [b1] => [b64Char (b1 / 4), b64Char (b1 % 4 * 16)]
  | [b1, b2] => [b64Char (b1 / 4), b64Char (b1 % 4 * 16 + b2 / 16), b64Char (b2 % 16 * 4)]
  | b1 :: b2 :: b3 :: rest =>
      b64Char (b1 / 4) :: b64Char (b1 % 4 * 16 + b2 / 16) ::
      b64Char (b2 % 16 * 4 + b3 / 64) :: b64Char (b3 % 64) :: b64Body rest

def valsOf : List Nat → List Nat
  | [] => []
  | [b1] => [b1 / 4, b1 % 4 * 16]
  | [b1, b2] => [b1 / 4, b1 % 4 * 16 + b2 / 16, b2 % 16 * 4]
  | b1 :: b2 :: b3 :: rest =>
      (b1 / 4) :: (b1 % 4 * 16 + b2 / 16) :: (b2 % 16 * 4 + b3 / 64) :: (b3 % 64) :: valsOf rest

-- Induction principle following the 3-byte grouping of base64.
theorem threeStep {P : List Nat → Prop} (h0 : P []) (h1 : ∀ b, P [b])
    (h2 : ∀ b1 b2, P [b1, b2])
    (h3 : ∀ b1 b2 b3 rest, P rest → P (b1 :: b2 :: b3 :: rest)) :
    ∀ l, P l
  | [] => h0
  | [b] => h1 b
  | [b1, b2] => h2 b1 b2
  | b1 :: b2 :: b3 :: rest => h3 b1 b2 b3 rest (threeStep h0 h1 h2 h3 rest)

theorem b64Val_b64Char : ∀ n, n < 64 → b64Val (b64Char n) = some n := by decide

theorem b64Char_spec : ∀ n, n < 64 →
    isAsciiWs (b64Char n) = false ∧ b64Char n ≠ '=' ∧ b64Char n ≠ '&' ∧
    b64Char n ≠ '%' ∧ (b64Char n).toNat < 128 := by decide

theorem encodeB64_mem {bs : List Nat} (hb : ∀ b ∈ bs, b < 256) :
    ∀ c ∈ encodeB64 bs, (∃ n, n < 64 ∧ c = b64Char n) ∨ c = '=' := by
  induction bs using threeStep with
  | h0 => intro c hc; simp [encodeB64] at hc
  | h1 b =>
    intro c hc
    have hb1 : b < 256 := hb b (by simp)
    simp only [encodeB64, List.mem_cons, List.not_mem_nil, or_false] at hc
    rcases hc with h | h | h | h
    · exact Or.inl ⟨b / 4, by omega, h⟩
    · exact Or.inl ⟨b % 4 * 16, by omega, h⟩
    · exact Or.inr h
    · exact Or.inr h
  | h2 b1 b2 =>
    intro c hc
    have hb1 : b1 < 256 := hb b1 (by simp)
    have hb2 : b2 < 256 := hb b2 (by simp)
    simp only [encodeB64, List.mem_cons, List.not_mem_nil, or_false] at hc
    rcases hc with h | h | h | h
    · exact Or.inl ⟨b1 / 4, by omega, h⟩
    · exact Or.inl ⟨b1 % 4 * 16 + b2 / 16, by omega, h⟩
    · exact Or.inl ⟨b2 % 16 * 4, by omega, h⟩
    · exact Or.inr h
  | h3 b1 b2 b3 rest ih =>
    intro c hc
    have hb1 : b1 < 256 := hb b1 (by simp)
    have hb2 : b2 < 256 := hb b2 (by simp)
    have hb3 : b3 < 256 := hb b3 (by simp)
    simp only [encodeB64, List.mem_cons] at hc
    rcases hc with h | h | h | h | h
    · exact Or.inl ⟨b1 / 4, by omega, h⟩
    · exact Or.inl ⟨b1 % 4 * 16 + b2 / 16, by omega, h⟩
    · exact Or.inl ⟨b2 % 16 * 4 + b3 / 64, by omega, h⟩
    · exact Or.inl ⟨b3 % 64, by omega, h⟩
    · exact ih (fun b hb' => hb b (by simp [hb'])) c h

theorem encodeB64_no_ws {bs : List Nat} (hb : ∀ b ∈ bs, b < 256) :
    (encodeB64 bs).filter (fun c => !(isAsciiWs c)) = encodeB64 bs := by
  rw [List.filter_eq_self]
  intro c hc
  rcases encodeB64_mem hb c hc with ⟨n, hn, rfl⟩ | rfl
  · simp [(b64Char_spec n hn).1]
  · decide

theorem encodeB64_len (bs : List Nat) : (encodeB64 bs).length % 4 = 0 := by
  induction bs using threeStep with
  | h0 => rfl
  | h1 b => simp [encodeB64]
  | h2 b1 b2 => simp [encodeB64]
  | h3 b1 b2 b3 rest ih => simp only [encodeB64, List.length_cons]; omega

theorem stripPad_append (xs ys : List Char) (h : 2 ≤ ys.length) :
    stripPad (xs ++ ys) = xs ++ stripPad ys := by
  have hne : ys ≠ [] := by intro h'; subst h'; simp at h
  have hne2 : ys.dropLast ≠ [] := by
    intro h'
    have := congrArg List.length h'
    simp [List.length_dropLast] at this
    omega
  unfold stripPad
  rw [List.getLast?_append_of_ne_nil xs hne,
    List.dropLast_append_of_ne_nil xs hne,
    List.getLast?_append_of_ne_nil xs hne2,
    List.dropLast_append_of_ne_nil xs hne2]
  by_cases h1 : ys.getLast? = some '='
  · rw [if_pos h1, if_pos h1]
    by_cases h2 : ys.dropLast.getLast? = some '='
    · rw [if_pos h2, if_pos h2]
    · rw [if_neg h2, if_neg h2]
  · rw [if_neg h1, if_neg h1]

theorem encodeB64_two_le {bs : List Nat} (h : bs ≠ []) : 2 ≤ (encodeB64 bs).length := by
  rcases bs with _ | ⟨b1, _ | ⟨b2, _ | ⟨b3, rest⟩⟩⟩
  · exact absurd rfl h
  · simp [encodeB64]
  · simp [encodeB64]
  · simp [encodeB64]

theorem stripPad_encodeB64 {bs : List Nat} :
    stripPad (encodeB64 bs) = b64Body bs := by
  induction bs using threeStep with
  | h0 => rfl
  | h1 b => rfl
  | h2 b1 b2 =>
    have h3 : b64Char (b2 % 16 * 4) ≠ '=' := (b64Char_spec _ (by omega)).2.1
    simp [stripPad, encodeB64, b64Body, h3]
  | h3 b1 b2 b3 rest ih =>
    rcases rest with _ | ⟨r, rest'⟩
    · have h4 : b64Char (b3 % 64) ≠ '=' := (b64Char_spec _ (by omega)).2.1
      simp [stripPad, encodeB64, b64Body, h4]
    · have heq : encodeB64 (b1 :: b2 :: b3 :: r :: rest') =
          [b64Char (b1 / 4), b64Char (b1 % 4 * 16 + b2 / 16),
           b64Char (b2 % 16 * 4 + b3 / 64), b64Char (b3 % 64)] ++ encodeB64 (r :: rest') := by
        rfl
      have hbody : b64Body (b1 :: b2 :: b3 :: r :: rest') =
          [b64Char (b1 / 4), b64Char (b1 % 4 * 16 + b2 / 16),
           b64Char (b2 % 16 * 4 + b3 / 64), b64Char (b3 % 64)] ++ b64Body (r :: rest') := by
        rfl
      rw [heq, stripPad_append _ _ (encodeB64_two_le (by simp)), ih, hbody]

theorem b64Vals_b64Body {bs : List Nat} (hb : ∀ b ∈ bs, b < 256) :
    b64Vals (b64Body bs) = some (valsOf bs) := by
  induction bs using threeStep with
  | h0 => rfl
  | h1 b =>
    have h1 : b < 256 := hb b (by simp)
    simp [b64Body, b64Vals, valsOf,
      b64Val_b64Char _ (show b / 4 < 64 by omega),
      b64Val_b64Char _ (show b % 4 * 16 < 64 by omega)]
  | h2 b1 b2 =>
    have h1 : b1 < 256 := hb b1 (by simp)
    have h2 : b2 < 256 := hb b2 (by simp)
    simp [b64Body, b64Vals, valsOf,
      b64Val_b64Char _ (show b1 / 4 < 64 by omega),
      b64Val_b64Char _ (show b1 % 4 * 16 + b2 / 16 < 64 by omega),
      b64Val_b64Char _ (show b2 % 16 * 4 < 64 by omega)]
  | h3 b1 b2 b3 rest ih =>
    have h1 : b1 < 256 := hb b1 (by simp)
    have h2 : b2 < 256 := hb b2 (by simp)
    have h3 : b3 < 256 := hb b3 (by simp)
    have ih' := ih (fun b hb' => hb b (by simp [hb']))
    rcases rest with _ | ⟨r, rest'⟩
    · simp [b64Body, b64Vals, valsOf,
        b64Val_b64Char _ (show b1 / 4 < 64 by omega),
        b64Val_b64Char _ (show b1 % 4 * 16 + b2 / 16 < 64 by omega),
        b64Val_b64Char _ (show b2 % 16 * 4 + b3 / 64 < 64 by omega),
        b64Val_b64Char _ (show b3 % 64 < 64 by omega)]
    · have hbody : b64Body (b1 :: b2 :: b3 :: r :: rest') =
          b64Char (b1 / 4) :: b64Char (b1 % 4 * 16 + b2 / 16) ::
          b64Char (b2 % 16 * 4 + b3 / 64) :: b64Char (b3 % 64) :: b64Body (r :: rest') := rfl
      have hvals : valsOf (b1 :: b2 :: b3 :: r :: rest') =
          (b1 / 4) :: (b1 % 4 * 16 + b2 / 16) :: (b2 % 16 * 4 + b3 / 64) :: (b3 % 64) ::
          valsOf (r :: rest') := rfl
      rw [hbody, hvals]
      simp [b64Vals,
        b64Val_b64Char _ (show b1 / 4 < 64 by omega),
        b64Val_b64Char _ (show b1 % 4 * 16 + b2 / 16 < 64 by omega),
        b64Val_b64Char _ (show b2 % 16 * 4 + b3 / 64 < 64 by omega),
        b64Val_b64Char _ (show b3 % 64 < 64 by omega), ih']

theorem decodeVals_valsOf {bs : List Nat} (hb : ∀ b ∈ bs, b < 256) :
    decodeVals (valsOf bs) = some bs := by
  induction bs using threeStep with
  | h0 => rfl
  | h1 b =>
    have h1 : b < 256 := hb b (by simp)
    simp [valsOf, decodeVals]
    omega
  | h2 b1 b2 =>
    have h1 : b1 < 256 := hb b1 (by simp)
    have h2 : b2 < 256 := hb b2 (by simp)
    simp [valsOf, decodeVals]
    omega
  | h3 b1 b2 b3 rest ih =>
    have h1 : b1 < 256 := hb b1 (by simp)
    have h2 : b2 < 256 := hb b2 (by simp)
    have h3 : b3 < 256 := hb b3 (by simp)
    have ih' := ih (fun b hb' => hb b (by simp [hb']))
    rcases rest with _ | ⟨r, rest'⟩
    · simp [valsOf, decodeVals]
      omega
    · have hv : valsOf (b1 :: b2 :: b3 :: r :: rest') =
          (b1 / 4) :: (b1 % 4 * 16 + b2 / 16) :: (b2 % 16 * 4 + b3 / 64) :: (b3 % 64) ::
          valsOf (r :: rest') := rfl
      rw [hv]
      simp only [decodeVals, ih', Option.bind_some]
      have e1 : b1 / 4 * 4 + (b1 % 4 * 16 + b2 / 16) / 16 = b1 := by omega
      have e2 : (b1 % 4 * 16 + b2 / 16) % 16 * 16 + (b2 % 16 * 4 + b3 / 64) / 4 = b2 := by omega
      have e3 : (b2 % 16 * 4 + b3 / 64) % 4 * 64 + b3 % 64 = b3 := by omega
      simp [e1, e2, e3]

theorem b64Body_len_mod {bs : List Nat} : (b64Body bs).length % 4 ≠ 1 := by
  induction bs using threeStep with
  | h0 => simp [b64Body]
  | h1 b => simp [b64Body]
  | h2 b1 b2 => simp [b64Body]
  | h3 b1 b2 b3 rest ih =>
    rcases rest with _ | ⟨r, rest'⟩
    · simp [b64Body]
    · have hbody : b64Body (b1 :: b2 :: b3 :: r :: rest') =
          [b64Char (b1 / 4), b64Char (b1 % 4 * 16 + b2 / 16),
           b64Char (b2 % 16 * 4 + b3 / 64), b64Char (b3 % 64)] ++ b64Body (r :: rest') := rfl
      rw [hbody]
      simp only [List.length_append, List.length_cons, List.length_nil]
      omega

theorem atob_encodeB64 {bs : List Nat} (hb : ∀ b ∈ bs, b < 256) :
    atobChars (encodeB64 bs) = some (bs.map Char.ofNat) := by
  simp only [atobChars]
  rw [encodeB64_no_ws hb]
  rw [if_pos (encodeB64_len bs), stripPad_encodeB64]
  rw [if_neg b64Body_len_mod]
  rw [b64Vals_b64Body hb]
  simp [decodeVals_valsOf hb]

theorem atob_btoa {s : List Char} (h : ∀ c ∈ s, c.toNat < 256) :
    atobChars (encodeB64 (s.map Char.toNat)) = some s := by
  have hb : ∀ b ∈ s.map Char.toNat, b < 256 := by
    intro b hbm
    rcases List.mem_map.mp hbm with ⟨c, hc, rfl⟩
    exact h c hc
  rw [atob_encodeB64 hb, List.map_map]
  congr 1
  have : ∀ c ∈ s, (Char.ofNat ∘ Char.toNat) c = id c := by
    intro c _
    simp [Char.ofNat_toNat]
  rw [List.map_congr_left this, List.map_id]

theorem btoa_some {s : List Char} (h : ∀ c ∈ s, c.toNat < 256) :
    btoaChars s = some (encodeB64 (s.map Char.toNat)) := by
  unfold btoaChars
  rw [if_pos]
  rw [List.all_eq_true]
  intro c hc
  exact decide_eq_true (h c hc)

-- ------------------ UTF-8 ------------------

def utf8EncodeChar (c : Char) : List Nat :=
  if c.toNat < 128 then [c.toNat]
  else if c.toNat < 2048 then [192 + c.toNat / 64, 128 + c.toNat % 64]
  else if c.toNat < 65536 then
    [224 + c.toNat / 4096, 128 + c.toNat / 64 % 64, 128 + c.toNat % 64]
  else
    [240 + c.toNat / 262144, 128 + c.toNat / 4096 % 64, 128 + c.toNat / 64 % 64,
     128 + c.toNat % 64]

def replChar : Char := Char.ofNat 65533

def isCont (b : Nat) : Bool := 128 ≤ b && b < 192

-- WHATWG strict second-byte windows (exclude overlong forms and
-- surrogates for 3-byte leads, and out-of-range values for 4-byte leads).
def utf8Snd3 (b b2 : Nat) : Bool :=
  if b = 224 then 160 ≤ b2 && b2 ≤ 191
  else if b = 237 then 128 ≤ b2 && b2 ≤ 159
  else 128 ≤ b2 && b2 ≤ 191

def utf8Snd4 (b b2 : Nat) : Bool :=
  if b = 240 then 144 ≤ b2 && b2 ≤ 191
  else if b = 244 then 128 ≤ b2 && b2 ≤ 143
  else 128 ≤ b2 && b2 ≤ 191

-- One step of lossy UTF-8 decoding: given a lead byte and the following
-- bytes, the decoded char (U+FFFD on an invalid sequence, skipping the
-- lead byte only) and the not-yet-consumed remainder.
def utf8Step (b : Nat) (rest : List Nat) : Char × List Nat :=
  if b < 128 then (Char.ofNat b, rest)
  else if 194 ≤ b && b ≤ 223 then
    match rest with
    | b2 :: rest2 =>
      if isCont b2 then (Char.ofNat ((b - 192) * 64 + (b2 - 128)), rest2)
      else (replChar, rest)
    | [] => (replChar, [])
  else if 224 ≤ b && b ≤ 239 then
    match rest with
    | b2 :: b3 :: rest3 =>
      if utf8Snd3 b b2 && isCont b3 then
        (Char.ofNat ((b - 224) * 4096 + (b2 - 128) * 64 + (b3 - 128)), rest3)
      else (replChar, rest)
    | _ => (replChar, rest)
  else if 240 ≤ b && b ≤ 244 then
    match rest with
    | b2 :: b3 :: b4 :: rest4 =>
      if utf8Snd4 b b2 && isCont b3 && isCont b4 then
        (Char.ofNat ((b - 240) * 262144 + (b2 - 128) * 4096 + (b3 - 128) * 64 +
          (b4 - 128)), rest4)
      else (replChar, rest)
    | _ => (replChar, rest)
  else (replChar, rest)

theorem utf8Step_len (b : Nat) (rest : List Nat) :
    (utf8Step b rest).2.length ≤ rest.length := by
  unfold utf8Step
  repeat' split
  all_goals simp_all [List.length_cons]
  all_goals omega

-- Lossy UTF-8 decoding with U+FFFD replacement (URLSearchParams side).
-- Each step consumes at least the lead byte, so the input length bounds
-- the number of steps.
def utf8DecodeLossyFuel : Nat → List Nat → List Char
  | _, [] => []
  | 0, _ :: _ => []
  | f + 1, b :: rest => (utf8Step b rest).1 :: utf8DecodeLossyFuel f (utf8Step b rest).2

def utf8DecodeLossy (l : List Nat) : List Char := utf8DecodeLossyFuel l.length l

theorem utf8DecodeLossyFuel_irrel :
    ∀ (f g : Nat) (l : List Nat), l.length ≤ f → l.length ≤ g →
      utf8DecodeLossyFuel f l = utf8DecodeLossyFuel g l := by
  intro f
  induction f with
  | zero =>
    intro g l hf _
    have : l = [] := by
      cases l with
      | nil => rfl
      | cons b rest => simp at hf
    subst this
    cases g <;> rfl
  | succ f ih =>
    intro g l hf hg
    cases l with
    | nil => cases g <;> rfl
    | cons b rest =>
      cases g with
      | zero => simp at hg
      | succ g' =>
        rw [utf8DecodeLossyFuel, utf8DecodeLossyFuel]
        congr 1
        have hs := utf8Step_len b rest
        simp only [List.length_cons] at hf hg
        exact ih g' _ (by omega) (by omega)

theorem utf8DecodeLossy_cons (b : Nat) (rest : List Nat) :
    utf8DecodeLossy (b :: rest) =
      (utf8Step b rest).1 :: utf8DecodeLossy (utf8Step b rest).2 := by
  show utf8DecodeLossyFuel (b :: rest).length (b :: rest) = _
  rw [List.length_cons, utf8DecodeLossyFuel]
  congr 1
  exact utf8DecodeLossyFuel_irrel _ _ _ (utf8Step_len b rest) (Nat.le_refl _)

-- ------------------ percent codec (ECMA-262) ------------------

def hexVal (c : Char) : Option Nat :=
  if '0' ≤ c ∧ c ≤ '9' then some (c.toNat - 48)
  else if 'A' ≤ c ∧ c ≤ 'F' then some (c.toNat - 65 + 10)
  else if 'a' ≤ c ∧ c ≤ 'f' then some (c.toNat - 97 + 10)
  else none

-- uppercase hex digit, as emitted by encodeURIComponent
def hexChar (n : Nat) : Char :=
  if n < 10 then Char.ofNat (48 + n) else Char.ofNat (65 + (n - 10))

def pctByte (b : Nat) : List Char := ['%', hexChar (b / 16), hexChar (b % 16)]

def pctEncodeBytes : List Nat → List Char
  | [] => []
  | b :: bs => pctByte b ++ pctEncodeBytes bs

-- chars encodeURIComponent leaves literal
def uriUnreserved (c : Char) : Bool :=
  ('A' ≤ c && c ≤ 'Z') || ('a' ≤ c && c ≤ 'z') || ('0' ≤ c && c ≤ '9') ||
  c == '-' || c == '_' || c == '.' || c == '!' || c == '~' || c == '*' ||
  c == Char.ofNat 39 || c == '(' || c == ')'

-- encodeURIComponent: literal unreserved chars, UTF-8 percent escapes
-- for everything else.
def encURIChars : List Char → List Char
  | [] => []
  | c :: rest =>
    if uriUnreserved c then c :: encURIChars rest
    else pctEncodeBytes (utf8EncodeChar c) ++ encURIChars rest

-- decodeURIComponent, stage 1: each "%HH" becomes a byte token, a
-- malformed escape is a URIError; other chars stay as char tokens.
def pctTokens : List Char → Option (List (Char ⊕ Nat))
  | [] => some []
  | c :: rest =>
    if c = '%' then
      match rest with
      | c1 :: c2 :: rest2 => do
          let h1 ← hexVal c1
          let h2 ← hexVal c2
          let ts ← pctTokens rest2
          pure (Sum.inr (h1 * 16 + h2) :: ts)
      | _ => none
    else do
      let ts ← pctTokens rest
      pure (Sum.inl c :: ts)

-- decodeURIComponent, stage 2, one UTF-8 sequence starting at byte
-- token b: byte tokens must form a valid strict UTF-8 sequence (whose
-- continuations are themselves escapes), else URIError (none).
def decTokStep (b : Nat) (rest : List (Char ⊕ Nat)) :
    Option (Char × List (Char ⊕ Nat)) :=
  if b < 128 then some (Char.ofNat b, rest)
  else if 194 ≤ b && b ≤ 223 then
    match rest with
    | Sum.inr b2 :: rest2 =>
      if isCont b2 then some (Char.ofNat ((b - 192) * 64 + (b2 - 128)), rest2)
      else none
    | _ => none
  else if 224 ≤ b && b ≤ 239 then
    match rest with
    | Sum.inr b2 :: Sum.inr b3 :: rest3 =>
      if utf8Snd3 b b2 && isCont b3 then
        some (Char.ofNat ((b - 224) * 4096 + (b2 - 128) * 64 + (b3 - 128)), rest3)
      else none
    | _ => none
  else if 240 ≤ b && b ≤ 244 then
    match rest with
    | Sum.inr b2 :: Sum.inr b3 :: Sum.inr b4 :: rest4 =>
      if utf8Snd4 b b2 && isCont b3 && isCont b4 then
        some (Char.ofNat ((b - 240) * 262144 + (b2 - 128) * 4096 +
          (b3 - 128) * 64 + (b4 - 128)), rest4)
      else none
    | _ => none
  else none

theorem decTokStep_len {b : Nat} {rest rest2 : List (Char ⊕ Nat)} {c : Char}
    (h : decTokStep b rest = some (c, rest2)) : rest2.length ≤ rest.length := by
  unfold decTokStep at h
  repeat' split at h
  all_goals simp_all [List.length_cons]
  all_goals omega

-- decodeURIComponent, stage 2: chars pass through, byte tokens are
-- decoded sequence by sequence.  The input length bounds the number of
-- steps, since each step consumes at least one token.
def decTokensFuel : Nat → List (Char ⊕ Nat) → Option (List Char)
  | _, [] => some []
  | 0, _ :: _ => none
  | f + 1, Sum.inl c :: rest => do
      let t ← decTokensFuel f rest
      pure (c :: t)
  | f + 1, Sum.inr b :: rest =>
    match decTokStep b rest with
    | some (c, rest2) => do
        let t ← decTokensFuel f rest2
        pure (c :: t)
    | none => none

def decTokens (l : List (Char ⊕ Nat)) : Option (List Char) :=
  decTokensFuel l.length l

theorem decTokensFuel_irrel :
    ∀ (f g : Nat) (l : List (Char ⊕ Nat)), l.length ≤ f → l.length ≤ g →
      decTokensFuel f l = decTokensFuel g l := by
  intro f
  induction f with
  | zero =>
    intro g l hf _
    have : l = [] := by
      cases l with
      | nil => rfl
      | cons t rest => simp at hf
    subst this
    cases g <;> rfl
  | succ f ih =>
    intro g l hf hg
    cases l with
    | nil => cases g <;> rfl
    | cons t rest =>
      cases g with
      | zero => simp at hg
      | succ g' =>
        simp only [List.length_cons] at hf hg
        cases t with
        | inl c =>
          rw [decTokensFuel, decTokensFuel, ih g' rest (by omega) (by omega)]
        | inr b =>
          rw [decTokensFuel, decTokensFuel]
          cases hs : decTokStep b rest with
          | none => rfl
          | some p =>
            rcases p with ⟨c, rest2⟩
            have := decTokStep_len hs
            dsimp only
            rw [ih g' rest2 (by omega) (by omega)]

theorem decTokens_inl_cons (c : Char) (rest : List (Char ⊕ Nat)) :
    decTokens (Sum.inl c :: rest) =
      (do
        let t ← decTokens rest
        pure (c :: t)) := by
  show decTokensFuel (rest.length + 1) (Sum.inl c :: rest) = _
  rw [decTokensFuel]
  rfl

theorem decTokens_inr_cons (b : Nat) (rest : List (Char ⊕ Nat)) :
    decTokens (Sum.inr b :: rest) =
      (match decTokStep b rest with
        | some (c, rest2) => do
            let t ← decTokens rest2
            pure (c :: t)
        | none => none) := by
  show decTokensFuel (rest.length + 1) (Sum.inr b :: rest) = _
  rw [decTokensFuel]
  cases hs : decTokStep b rest with
  | none => rfl
  | some p =>
    rcases p with ⟨c, rest2⟩
    have := decTokStep_len hs
    dsimp only
    rw [decTokensFuel_irrel rest.length rest2.length rest2 (by omega) (by omega)]
    rfl

def decURIChars (s : List Char) : Option (List Char) := do
  let ts ← pctTokens s
  decTokens ts

-- ------------------ URLSearchParams ------------------

-- application/x-www-form-urlencoded value decoding, byte stage:
-- '+' is a space, a valid "%HH" is a byte, anything else passes through
-- as its UTF-8 bytes.
def formUrlBytes : List Char → List Nat
  | [] => []
  | c :: rest =>
    if c = '+' then 32 :: formUrlBytes rest
    else if c = '%' then
      match rest with
      | c1 :: c2 :: rest2 =>
        match hexVal c1, hexVal c2 with
        | some h1, some h2 => (h1 * 16 + h2) :: formUrlBytes rest2
        | _, _ => 37 :: formUrlBytes (c1 :: c2 :: rest2)
      | [c1] => 37 :: formUrlBytes [c1]
      | [] => [37]
    else utf8EncodeChar c ++ formUrlBytes rest

def formUrlDecode (cs : List Char) : List Char := utf8DecodeLossy (formUrlBytes cs)

def splitOnAmp : List Char → List (List Char)
  | [] => [[]]
  | c :: rest =>
    if c = '&' then [] :: splitOnAmp rest
    else
      match splitOnAmp rest with
      | g :: gs => (c :: g) :: gs
      | [] => [[c]]

def splitEq : List Char → List Char × List Char
  | [] => ([], [])
  | c :: rest =>
    if c = '=' then ([], rest)
    else ((c :: (splitEq rest).1), (splitEq rest).2)

-- URLSearchParams constructed from a query string: drop a leading '?',
-- split on '&' skipping empty pieces, split each piece at the first '=',
-- and form-url-decode names and values.
def parseQuery (search : List Char) : List (List Char × List Char) :=
  ((splitOnAmp (if search.head? = some '?' then search.tail else search)).filter
      (fun p => p ≠ [])).map
    (fun p => (formUrlDecode (splitEq p).1, formUrlDecode (splitEq p).2))

-- URLSearchParams.get: first pair with the given name, null if none.
def getParam (search : List Char) (name : List Char) : Option (List Char) :=
  ((parseQuery search).find? (fun p => p.1 == name)).map (fun p => p.2)

theorem hexVal_hexChar : ∀ n, n < 16 → hexVal (hexChar n) = some n := by decide

theorem hexChar_ne : ∀ n, n < 16 →
    hexChar n ≠ '&' ∧ hexChar n ≠ '=' ∧ hexChar n ≠ '+' ∧ hexChar n ≠ '%' := by decide

theorem utf8EncodeChar_ascii {c : Char} (h : c.toNat < 128) :
    utf8EncodeChar c = [c.toNat] := by
  simp [utf8EncodeChar, h]

theorem uriUnreserved_ne {c : Char} (h : uriUnreserved c = true) :
    c ≠ '+' ∧ c ≠ '%' ∧ c ≠ '&' ∧ c ≠ '=' := by
  refine ⟨?_, ?_, ?_, ?_⟩ <;> (rintro rfl; revert h; decide)

theorem char_toNat_lt (c : Char) : c.toNat < 1114112 := by
  rcases c with ⟨v, hv⟩
  rcases hv with h | ⟨h1, h2⟩
  · exact Nat.lt_trans h (by decide)
  · exact h2

theorem utf8EncodeChar_lt {c : Char} : ∀ b ∈ utf8EncodeChar c, b < 256 := by
  intro b hb
  have hc := char_toNat_lt c
  unfold utf8EncodeChar at hb
  split at hb
  · simp at hb; omega
  · split at hb
    · simp at hb
      rcases hb with h | h <;> omega
    · split at hb
      · simp at hb
        rcases hb with h | h | h <;> omega
      · simp at hb
        rcases hb with h | h | h | h <;> omega

theorem formUrlBytes_cons_plain {c : Char} (rest : List Char) (h1 : c ≠ '+')
    (h2 : c ≠ '%') :
    formUrlBytes (c :: rest) = utf8EncodeChar c ++ formUrlBytes rest := by
  conv_lhs => rw [formUrlBytes.eq_def]
  simp [h1, h2]

theorem formUrlBytes_cons_pct (c1 c2 : Char) (rest : List Char) {h1 h2 : Nat}
    (e1 : hexVal c1 = some h1) (e2 : hexVal c2 = some h2) :
    formUrlBytes ('%' :: c1 :: c2 :: rest) = (h1 * 16 + h2) :: formUrlBytes rest := by
  conv_lhs => rw [formUrlBytes.eq_def]
  simp [e1, e2]

theorem formUrlBytes_encURI {v : List Char} (hv : ∀ c ∈ v, c.toNat < 128) :
    formUrlBytes (encURIChars v) = v.map Char.toNat := by
  induction v with
  | nil => rfl
  | cons c v' ih =>
    have hc : c.toNat < 128 := hv c (by simp)
    have ih' := ih (fun c hc' => hv c (by simp [hc']))
    by_cases hu : uriUnreserved c = true
    · have hne := uriUnreserved_ne hu
      rw [show encURIChars (c :: v') = c :: encURIChars v' by simp [encURIChars, hu]]
      rw [formUrlBytes_cons_plain _ hne.1 hne.2.1, utf8EncodeChar_ascii hc, ih',
        List.map_cons]
      rfl
    · rw [show encURIChars (c :: v') =
          pctEncodeBytes (utf8EncodeChar c) ++ encURIChars v' by
        simp [encURIChars, hu]]
      rw [utf8EncodeChar_ascii hc]
      rw [show pctEncodeBytes [c.toNat] = '%' :: hexChar (c.toNat / 16) ::
          hexChar (c.toNat % 16) :: [] from rfl]
      rw [List.cons_append, List.cons_append, List.cons_append, List.nil_append]
      rw [formUrlBytes_cons_pct _ _ _ (hexVal_hexChar _ (by omega))
        (hexVal_hexChar _ (by omega)), ih', List.map_cons]
      congr 1
      omega

theorem utf8Step_ascii {b : Nat} (rest : List Nat) (h : b < 128) :
    utf8Step b rest = (Char.ofNat b, rest) := by
  simp [utf8Step, h]

theorem utf8DecodeLossy_cons_ascii {b : Nat} (rest : List Nat) (h : b < 128) :
    utf8DecodeLossy (b :: rest) = Char.ofNat b :: utf8DecodeLossy rest := by
  rw [utf8DecodeLossy_cons, utf8Step_ascii _ h]

theorem utf8DecodeLossy_ascii {v : List Char} (hv : ∀ c ∈ v, c.toNat < 128) :
    utf8DecodeLossy (v.map Char.toNat) = v := by
  induction v with
  | nil => rfl
  | cons c v' ih =>
    have hc : c.toNat < 128 := hv c (by simp)
    have ih' := ih (fun c hc' => hv c (by simp [hc']))
    rw [List.map_cons, utf8DecodeLossy_cons_ascii _ hc, Char.ofNat_toNat, ih']

theorem formUrl_encURI {v : List Char} (hv : ∀ c ∈ v, c.toNat < 128) :
    formUrlDecode (encURIChars v) = v := by
  rw [formUrlDecode, formUrlBytes_encURI hv, utf8DecodeLossy_ascii hv]

theorem pctEncodeBytes_mem {bs : List Nat} (hb : ∀ b ∈ bs, b < 256) :
    ∀ c' ∈ pctEncodeBytes bs, c' = '%' ∨ ∃ n, n < 16 ∧ c' = hexChar n := by
  induction bs with
  | nil => intro c' h; simp [pctEncodeBytes] at h
  | cons b bs' ih =>
    intro c' h
    have hb1 : b < 256 := hb b (by simp)
    rw [show pctEncodeBytes (b :: bs') = pctByte b ++ pctEncodeBytes bs' from rfl] at h
    rcases List.mem_append.mp h with h' | h'
    · simp only [pctByte, List.mem_cons, List.not_mem_nil, or_false] at h'
      rcases h' with rfl | rfl | rfl
      · exact Or.inl rfl
      · exact Or.inr ⟨b / 16, by omega, rfl⟩
      · exact Or.inr ⟨b % 16, by omega, rfl⟩
    · exact ih (fun x hx => hb x (by simp [hx])) c' h'

theorem encURI_mem {v : List Char} :
    ∀ c' ∈ encURIChars v,
      uriUnreserved c' = true ∨ c' = '%' ∨ ∃ n, n < 16 ∧ c' = hexChar n := by
  induction v with
  | nil => intro c' hc'; simp [encURIChars] at hc'
  | cons c v' ih =>
    intro c' hc'
    by_cases hu : uriUnreserved c = true
    · rw [show encURIChars (c :: v') = c :: encURIChars v' by simp [encURIChars, hu]] at hc'
      rcases List.mem_cons.mp hc' with rfl | h
      · exact Or.inl hu
      · exact ih c' h
    · rw [show encURIChars (c :: v') =
          pctEncodeBytes (utf8EncodeChar c) ++ encURIChars v' by
        simp [encURIChars, hu]] at hc'
      rcases List.mem_append.mp hc' with h | h
      · rcases pctEncodeBytes_mem (@utf8EncodeChar_lt c) c' h with h' | h'
        · exact Or.inr (Or.inl h')
        · exact Or.inr (Or.inr h')
      · exact ih c' h

theorem encURI_ne_special {v : List Char} :
    ∀ c' ∈ encURIChars v, c' ≠ '&' ∧ c' ≠ '=' := by
  intro c' hc'
  rcases encURI_mem c' hc' with h | rfl | ⟨n, hn, rfl⟩
  · exact ⟨(uriUnreserved_ne h).2.2.1, (uriUnreserved_ne h).2.2.2⟩
  · exact ⟨by decide, by decide⟩
  · exact ⟨(hexChar_ne n hn).1, (hexChar_ne n hn).2.1⟩

theorem splitOnAmp_no {xs : List Char} (h : '&' ∉ xs) : splitOnAmp xs = [xs] := by
  induction xs with
  | nil => rfl
  | cons c rest ih =>
    have hc : c ≠ '&' := fun h' => h (by simp [h'])
    have ih' := ih (fun h' => h (by simp [h']))
    rw [splitOnAmp, if_neg hc, ih']

theorem splitOnAmp_append {xs : List Char} (ys : List Char) (h : '&' ∉ xs) :
    splitOnAmp (xs ++ '&' :: ys) = xs :: splitOnAmp ys := by
  induction xs with
  | nil => simp [splitOnAmp]
  | cons c rest ih =>
    have hc : c ≠ '&' := fun h' => h (by simp [h'])
    have ih' := ih (fun h' => h (by simp [h']))
    rw [List.cons_append, splitOnAmp, if_neg hc, ih']

theorem splitEq_append {n : List Char} (v : List Char) (h : '=' ∉ n) :
    splitEq (n ++ '=' :: v) = (n, v) := by
  induction n with
  | nil => simp [splitEq]
  | cons c rest ih =>
    have hc : c ≠ '=' := fun h' => h (by simp [h'])
    have ih' := ih (fun h' => h (by simp [h']))
    rw [List.cons_append, splitEq, if_neg hc, ih']

theorem splitEq_no {cs : List Char} (h : '=' ∉ cs) : splitEq cs = (cs, []) := by
  induction cs with
  | nil => rfl
  | cons c rest ih =>
    have hc : c ≠ '=' := fun h' => h (by simp [h'])
    have ih' := ih (fun h' => h (by simp [h']))
    rw [splitEq, if_neg hc, ih']

theorem parseQuery_canonical (E1 E2 E3 : List Char)
    (h1 : ∀ c ∈ E1, c ≠ '&') (h2 : ∀ c ∈ E2, c ≠ '&') (h3 : ∀ c ∈ E3, c ≠ '&') :
    parseQuery ('?' :: (("html".data ++ '=' :: E1) ++ '&' ::
        (("css".data ++ '=' :: E2) ++ '&' :: ("js".data ++ '=' :: E3)))) =
      [("html".data, formUrlDecode E1), ("css".data, formUrlDecode E2),
       ("js".data, formUrlDecode E3)] := by
  have a1 : '&' ∉ ("html".data ++ '=' :: E1) := by
    intro hm
    rcases List.mem_append.mp hm with hm | hm
    · revert hm; decide
    · rcases List.mem_cons.mp hm with hm | hm
      · exact absurd hm.symm (by decide)
      · exact h1 _ hm rfl
  have a2 : '&' ∉ ("css".data ++ '=' :: E2) := by
    intro hm
    rcases List.mem_append.mp hm with hm | hm
    · revert hm; decide
    · rcases List.mem_cons.mp hm with hm | hm
      · exact absurd hm.symm (by decide)
      · exact h2 _ hm rfl
  have a3 : '&' ∉ ("js".data ++ '=' :: E3) := by
    intro hm
    rcases List.mem_append.mp hm with hm | hm
    · revert hm; decide
    · rcases List.mem_cons.mp hm with hm | hm
      · exact absurd hm.symm (by decide)
      · exact h3 _ hm rfl
  rw [parseQuery]
  rw [if_pos (by simp)]
  rw [List.tail_cons]
  rw [splitOnAmp_append _ a1, splitOnAmp_append _ a2, splitOnAmp_no a3]
  have ne1 : ("html".data ++ '=' :: E1) ≠ [] := by simp
  have ne2 : ("css".data ++ '=' :: E2) ≠ [] := by simp
  have ne3 : ("js".data ++ '=' :: E3) ≠ [] := by simp
  rw [List.filter_cons_of_pos (by simp),
    List.filter_cons_of_pos (by simp),
    List.filter_cons_of_pos (by simp),
    List.filter_nil]
  rw [List.map_cons, List.map_cons, List.map_cons, List.map_nil]
  rw [splitEq_append _ (by decide), splitEq_append _ (by decide),
    splitEq_append _ (by decide)]
  rw [show formUrlDecode ("html".data) = "html".data by decide,
    show formUrlDecode ("css".data) = "css".data by decide,
    show formUrlDecode ("js".data) = "js".data by decide]

theorem getParam_canonical (E1 E2 E3 : List Char)
    (h1 : ∀ c ∈ E1, c ≠ '&') (h2 : ∀ c ∈ E2, c ≠ '&') (h3 : ∀ c ∈ E3, c ≠ '&') :
    getParam ('?' :: (("html".data ++ '=' :: E1) ++ '&' ::
        (("css".data ++ '=' :: E2) ++ '&' :: ("js".data ++ '=' :: E3)))) ("html".data) =
      some (formUrlDecode E1) ∧
    getParam ('?' :: (("html".data ++ '=' :: E1) ++ '&' ::
        (("css".data ++ '=' :: E2) ++ '&' :: ("js".data ++ '=' :: E3)))) ("css".data) =
      some (formUrlDecode E2) ∧
    getParam ('?' :: (("html".data ++ '=' :: E1) ++ '&' ::
        (("css".data ++ '=' :: E2) ++ '&' :: ("js".data ++ '=' :: E3)))) ("js".data) =
      some (formUrlDecode E3) := by
  refine ⟨?_, ?_, ?_⟩ <;>
    rw [getParam, parseQuery_canonical E1 E2 E3 h1 h2 h3] <;>
    simp [List.find?]

-- ------------------ the app (src/App.js) ------------------

-- The TEMPLATES registry, verbatim from the top of App.js.
def tpl_default_html : String :=
  "<!DOCTYPE html>\n<html>\n<head>\n  <title>Live Preview</title>\n</head>\n<body>\n  <h1>Hello from the Editor!</h1>\n  <p>Start typing your HTML here.</p>\n  <button id=\"myButton\">Click Me</button>\n</body>\n</html>"

def tpl_default_css : String :=
  "body \x7b\n  margin: 0;\n  display: flex;\n  justify-content: center;\n  align-items: center;\n  min-height: 100vh;\n  flex-direction: column;\n\x7d\nh1 \x7b\n  text-align: center;\n  font-size: 3em;\n  color: green;\n\x7d\nbutton \x7b\n  padding: 10px 20px;\n  background-color: #007bff;\n  color: white;\n  border: none;\n  border-radius: 5px;\n  cursor: pointer;\n  margin-top: 20px;\n\x7d\nbutton:hover \x7b\n  background-color: #0056b3;\n\x7d"

def tpl_default_js : String :=
  "console.log(\"Hello from JavaScript!\");\ndocument.addEventListener(\x27DOMContentLoaded\x27, () => \x7b\n  const button = document.getElementById(\x27myButton\x27);\n  if (button) \x7b\n    button.addEventListener(\x27click\x27, () => \x7b\n      alert(\x27Button clicked!\x27);\n    \x7d);\n  \x7d\n\x7d);"

def tpl_simpleCard_html : String :=
  "<!DOCTYPE html>\n<html>\n<head>\n  <title>Simple Card</title>\n</head>\n<body>\n  <div class=\"card\">\n    <h2>Card Title</h2>\n    <p>This is a simple card created with HTML and CSS.</p>\n    <button class=\"card-button\">Learn More</button>\n  </div>\n</body>\n</html>"

def tpl_simpleCard_css : String :=
  "body \x7b\n  font-family: sans-serif;\n  margin: 0;\n  display: flex;\n  justify-content: center;\n  align-items: center;\n  min-height: 100vh;\n  background-color: #f4f4f4;\n\x7d\n.card \x7b\n  background-color: #fff;\n  border-radius: 8px;\n  box-shadow: 0 4px 8px rgba(0, 0, 0, 0.1);\n  padding: 20px;\n  width: 300px;\n  text-align: center;\n\x7d\n.card h2 \x7b\n  color: #333;\n\x7d\n.card p \x7b\n  color: #666;\n  font-size: 0.9em;\n  line-height: 1.5;\n\x7d\n.card-button \x7b\n  background-color: #4CAF50;\n  color: white;\n  padding: 10px 15px;\n  border: none;\n  border-radius: 5px;\n  cursor: pointer;\n  margin-top: 15px;\n\x7d\n.card-button:hover \x7b\n  background-color: #45a049;\n\x7d"

def tpl_simpleCard_js : String :=
  "console.log(\"Card loaded!\");\ndocument.addEventListener(\x27DOMContentLoaded\x27, () => \x7b\n  const button = document.querySelector(\x27.card-button\x27);\n  if (button) \x7b\n    button.addEventListener(\x27click\x27, () => \x7b\n      alert(\x27Card button clicked!\x27);\n    \x7d);\n  \x7d\n\x7d);"

def tpl_flexboxExample_html : String :=
  "<!DOCTYPE html>\n<html>\n<head>\n  <title>Flexbox Layout</title>\n</head>\n<body>\n  <div class=\"flex-container\">\n    <div class=\"flex-item\">Item 1</div>\n    <div class=\"flex-item\">Item 2</div>\n    <div class=\"flex-item\">Item 3</div>\n  </div>\n</body>\n</html>"

def tpl_flexboxExample_css : String :=
  "body \x7b\n  font-family: sans-serif;\n  margin: 0;\n  display: flex;\n  justify-content: center;\n  align-items: center;\n  min-height: 100vh;\n  background-color: #eee;\n\x7d\n.flex-container \x7b\n  display: flex;\n  flex-wrap: wrap;\n  gap: 10px;\n  padding: 20px;\n  background-color: #fff;\n  border-radius: 8px;\n  box-shadow: 0 2px 4px rgba(0,0,0,0.1);\n\x7d\n.flex-item \x7b\n  background-color: #007bff;\n  color: white;\n  padding: 20px;\n  border-radius: 5px;\n  flex: 1; /* Allows items to grow and shrink */\n  min-width: 100px;\n  text-align: center;\n\x7d\n"

def tpl_flexboxExample_js : String :=
  "console.log(\"Flexbox example loaded.\");"

structure Template where
  html : String
  css : String
  js : String
deriving DecidableEq, Repr

def TEMPLATES_default : Template :=
  { html := tpl_default_html, css := tpl_default_css, js := tpl_default_js }

def TEMPLATES_simpleCard : Template :=
  { html := tpl_simpleCard_html, css := tpl_simpleCard_css, js := tpl_simpleCard_js }

def TEMPLATES_flexboxExample : Template :=
  { html := tpl_flexboxExample_html, css := tpl_flexboxExample_css,
    js := tpl_flexboxExample_js }

-- What TEMPLATES[templateName] can yield.  A JS property read on the
-- object literal consults the prototype chain: one of the three own
-- keys yields its template; a property of Object.prototype yields a
-- truthy inherited value (a function, or Object.prototype itself for
-- __proto__) that has no html/css/js fields; any other name yields
-- undefined.
inductive TemplateLookup where
  | own (t : Template)
  | inherited
  | undef
deriving DecidableEq, Repr

-- The properties TEMPLATES inherits from Object.prototype.
def objectPrototypeProps : List String :=
  ["constructor", "hasOwnProperty", "isPrototypeOf", "propertyIsEnumerable",
   "toLocaleString", "toString", "valueOf", "__defineGetter__",
   "__defineSetter__", "__lookupGetter__", "__lookupSetter__", "__proto__"]

-- TEMPLATES[templateName]: prototype-chain-aware lookup on the
-- three-entry object literal.
def TEMPLATES (name : String) : TemplateLookup :=
  if name = "default" then TemplateLookup.own TEMPLATES_default
  else if name = "simpleCard" then TemplateLookup.own TEMPLATES_simpleCard
  else if name = "flexboxExample" then TemplateLookup.own TEMPLATES_flexboxExample
  else if name ∈ objectPrototypeProps then TemplateLookup.inherited
  else TemplateLookup.undef

-- React state of App: the three buffers (htmlCode, cssCode, jsCode) and
-- the derived srcDoc string.
structure AppState where
  htmlCode : String
  cssCode : String
  jsCode : String
  srcDoc : String
deriving DecidableEq, Repr

-- useState initial values: the default template, and '' for srcDoc.
def initialState : AppState :=
  { htmlCode := TEMPLATES_default.html, cssCode := TEMPLATES_default.css,
    jsCode := TEMPLATES_default.js, srcDoc := "" }

-- JS truthiness of `urlParams.get(..)`: null and the empty string are
-- falsy.
def truthy : Option (List Char) → Bool
  | none => false
  | some l => !(l.isEmpty)

-- atob(decodeURIComponent(v)); none models a thrown exception.
def decodeParam (v : List Char) : Option (List Char) := do
  let d ← decURIChars v
  atobChars d

def setHtml (s : String) (st : AppState) : AppState := { st with htmlCode := s }

def setCss (s : String) (st : AppState) : AppState := { st with cssCode := s }

def setJs (s : String) (st : AppState) : AppState := { st with jsCode := s }

-- One `if (param) setX(atob(decodeURIComponent(param)));` statement of
-- the URL-decode effect; none propagates a thrown exception.
def applyParam (v : Option (List Char)) (set : String → AppState → AppState)
    (st : AppState) : Option AppState :=
  if truthy v then do
    let s ← decodeParam (v.getD [])
    pure (set (String.mk s) st)
  else pure st

-- The try-block body: the three conditional set statements in order.
def tryDecodeAll (uh uc uj : Option (List Char)) (st : AppState) : Option AppState := do
  let st1 ← applyParam uh setHtml st
  let st2 ← applyParam uc setCss st1
  applyParam uj setJs st2

-- The URL-decode useEffect, given the three looked-up parameters: guard
-- on any truthy parameter, run the try block, and on a thrown exception
-- reset all three buffers to the default template (the catch block).
def decodeStep (uh uc uj : Option (List Char)) (st : AppState) : AppState :=
  if truthy uh || truthy uc || truthy uj then
    match tryDecodeAll uh uc uj st with
    | some st' => st'
    | none =>
      { st with htmlCode := TEMPLATES_default.html, cssCode := TEMPLATES_default.css, jsCode := TEMPLATES_default.js }
  else st

-- The URL-decode useEffect on window.location.search.
def decodeFromSearch (search : String) (st : AppState) : AppState :=
  decodeStep (getParam search.data ("html".data)) (getParam search.data ("css".data))
    (getParam search.data ("js".data)) st

-- generateShareUrl: encodeURIComponent(btoa(..)) of the three buffers,
-- then the fixed-shape URL; none models a thrown btoa exception.
def generateShareUrl (origin : String) (st : AppState) : Option String := do
  let encodedHtml ← btoaChars st.htmlCode.data
  let encodedCss ← btoaChars st.cssCode.data
  let encodedJs ← btoaChars st.jsCode.data
  pure (origin ++ "/?html=" ++ String.mk (encURIChars encodedHtml) ++ "&css=" ++
    String.mk (encURIChars encodedCss) ++ "&js=" ++ String.mk (encURIChars encodedJs))

-- The search component (from '?') of the generated share URL.
def shareSearch (st : AppState) : Option String := do
  let encodedHtml ← btoaChars st.htmlCode.data
  let encodedCss ← btoaChars st.cssCode.data
  let encodedJs ← btoaChars st.jsCode.data
  pure ("?html=" ++ String.mk (encURIChars encodedHtml) ++ "&css=" ++
    String.mk (encURIChars encodedCss) ++ "&js=" ++ String.mk (encURIChars encodedJs))

-- The srcDoc template literal of the preview useEffect.
def fullSrcDoc (htmlCode cssCode jsCode : String) : String :=
  "\n      <!DOCTYPE html>\n      <html>\n      <head>\n        <style>" ++ cssCode ++
  "</style>\n      </head>\n      <body>\n        " ++ htmlCode ++
  "\n        <script>" ++ jsCode ++ "</script>\n      </body>\n      </html>\n    "

-- The preview useEffect: setSrcDoc(fullSrcDoc) from the three buffers.
def srcDocEffect (st : AppState) : AppState :=
  { st with srcDoc := fullSrcDoc st.htmlCode st.cssCode st.jsCode }

-- The three buffers as loadTemplate can leave them: setHtmlCode and
-- friends receive template.html etc., which is undefined (none) when
-- the lookup hit an inherited Object.prototype value.
structure JsBuffers where
  htmlCode : Option String
  cssCode : Option String
  jsCode : Option String
deriving DecidableEq, Repr

def buffersOf (st : AppState) : JsBuffers :=
  { htmlCode := some st.htmlCode, cssCode := some st.cssCode, jsCode := some st.jsCode }

-- loadTemplate: early return on "", prototype-chain-aware lookup,
-- if (template) truthiness test (inherited values are truthy, so they
-- reach the window.confirm gate too), then the three set calls;
-- confirm is the user's answer.  On an inherited value template.html,
-- template.css and template.js are all undefined.
def loadTemplate (templateName : String) (confirm : Bool) (st : AppState) : JsBuffers :=
  if templateName = "" then buffersOf st
  else
    match TEMPLATES templateName with
    | TemplateLookup.own template =>
      if confirm then
        { htmlCode := some template.html, cssCode := some template.css, jsCode := some template.js }
      else buffersOf st
    | TemplateLookup.inherited =>
      if confirm then { htmlCode := none, cssCode := none, jsCode := none }
      else buffersOf st
    | TemplateLookup.undef => buffersOf st

theorem strMk_data (s : String) : String.mk s.data = s := rfl

theorem str_data_ne {s : String} (h : s ≠ "") : s.data ≠ [] := by
  intro hd
  exact h (congrArg String.mk hd)

theorem encodeB64_ne_nil {bs : List Nat} (h : bs ≠ []) : encodeB64 bs ≠ [] := by
  rcases bs with _ | ⟨b1, _ | ⟨b2, _ | ⟨b3, rest⟩⟩⟩
  · exact absurd rfl h
  · simp [encodeB64]
  · simp [encodeB64]
  · simp [encodeB64]

theorem utf8EncodeChar_ne_nil (c : Char) : utf8EncodeChar c ≠ [] := by
  unfold utf8EncodeChar
  repeat' split
  all_goals simp

theorem encURIChars_ne_nil {v : List Char} (h : v ≠ []) : encURIChars v ≠ [] := by
  rcases v with _ | ⟨c, rest⟩
  · exact absurd rfl h
  · by_cases hu : uriUnreserved c = true
    · simp [encURIChars, hu]
    · rw [show encURIChars (c :: rest) =
          pctEncodeBytes (utf8EncodeChar c) ++ encURIChars rest by simp [encURIChars, hu]]
      rcases he : utf8EncodeChar c with _ | ⟨b, bs⟩
      · exact absurd he (utf8EncodeChar_ne_nil c)
      · simp [pctEncodeBytes, pctByte]

theorem encodeB64_ascii {bs : List Nat} (hb : ∀ b ∈ bs, b < 256) :
    ∀ c ∈ encodeB64 bs, c.toNat < 128 := by
  intro c hc
  rcases encodeB64_mem hb c hc with ⟨n, hn, rfl⟩ | rfl
  · exact (b64Char_spec n hn).2.2.2.2
  · decide

theorem encodeB64_no_pct {bs : List Nat} (hb : ∀ b ∈ bs, b < 256) :
    '%' ∉ encodeB64 bs := by
  intro hm
  rcases encodeB64_mem hb '%' hm with ⟨n, hn, he⟩ | he
  · exact (b64Char_spec n hn).2.2.2.1 he.symm
  · exact absurd he (by decide)

theorem pctTokens_no_pct {v : List Char} (h : '%' ∉ v) :
    pctTokens v = some (v.map Sum.inl) := by
  induction v with
  | nil => rfl
  | cons c rest ih =>
    have hc : c ≠ '%' := fun h' => h (by simp [h'])
    have ih' := ih (fun h' => h (by simp [h']))
    rw [pctTokens.eq_def]
    simp [hc, ih']

theorem decTokens_inl (v : List Char) : decTokens (v.map Sum.inl) = some v := by
  induction v with
  | nil => rfl
  | cons c rest ih =>
    rw [List.map_cons, decTokens_inl_cons, ih]
    rfl

theorem decURIChars_no_pct {v : List Char} (h : '%' ∉ v) : decURIChars v = some v := by
  rw [decURIChars, pctTokens_no_pct h]
  exact decTokens_inl v

-- The search string produced by shareSearch, in the canonical list shape
-- consumed by the query parser.
def canonQ (E1 E2 E3 : List Char) : List Char :=
  '?' :: (("html".data ++ '=' :: E1) ++ '&' ::
    (("css".data ++ '=' :: E2) ++ '&' :: ("js".data ++ '=' :: E3)))

theorem shareSearch_some {st : AppState}
    (hh : ∀ c ∈ st.htmlCode.data, c.toNat < 256)
    (hc : ∀ c ∈ st.cssCode.data, c.toNat < 256)
    (hj : ∀ c ∈ st.jsCode.data, c.toNat < 256) :
    shareSearch st = some ("?html=" ++
      String.mk (encURIChars (encodeB64 (st.htmlCode.data.map Char.toNat))) ++ "&css=" ++
      String.mk (encURIChars (encodeB64 (st.cssCode.data.map Char.toNat))) ++ "&js=" ++
      String.mk (encURIChars (encodeB64 (st.jsCode.data.map Char.toNat)))) := by
  rw [shareSearch, btoa_some hh, btoa_some hc, btoa_some hj]
  rfl

theorem shareSearch_data (E1 E2 E3 : List Char) :
    ("?html=" ++ String.mk E1 ++ "&css=" ++ String.mk E2 ++ "&js=" ++
      String.mk E3).data = canonQ E1 E2 E3 := by
  simp only [String.data_append, canonQ]
  simp [List.cons_append, List.nil_append, List.append_assoc]

theorem truthy_some_ne {l : List Char} (h : l ≠ []) : truthy (some l) = true := by
  simp [truthy, h]

theorem appstate_eta_html (st : AppState) : { st with htmlCode := st.htmlCode } = st := rfl

-- decoding of one present parameter succeeds (or the parameter is absent)
def decodesOk : Option (List Char) → Prop
  | none => True
  | some l => ∃ s, decodeParam l = some s

-- value a buffer holds after the decode effect processed its parameter
def paramUpd (v : Option (List Char)) (cur : String) : String :=
  match v with
  | none => cur
  | some l =>
    if l.isEmpty then cur
    else
      match decodeParam l with
      | some s => String.mk s
      | none => cur

theorem applyParam_html {v : Option (List Char)} (hok : decodesOk v) (st : AppState) :
    applyParam v setHtml st = some { st with htmlCode := paramUpd v st.htmlCode } := by
  cases v with
  | none => simp [applyParam, truthy, paramUpd]
  | some l =>
    by_cases hl : l.isEmpty
    · have : l = [] := by simpa using hl
      subst this
      simp [applyParam, truthy, paramUpd]
    · obtain ⟨s, hs⟩ := hok
      have ht : truthy (some l) = true := by simp [truthy, hl]
      rw [applyParam, if_pos ht, paramUpd]
      simp [hl, hs, setHtml]

theorem applyParam_css {v : Option (List Char)} (hok : decodesOk v) (st : AppState) :
    applyParam v setCss st = some { st with cssCode := paramUpd v st.cssCode } := by
  cases v with
  | none => simp [applyParam, truthy, paramUpd]
  | some l =>
    by_cases hl : l.isEmpty
    · have : l = [] := by simpa using hl
      subst this
      simp [applyParam, truthy, paramUpd]
    · obtain ⟨s, hs⟩ := hok
      have ht : truthy (some l) = true := by simp [truthy, hl]
      rw [applyParam, if_pos ht, paramUpd]
      simp [hl, hs, setCss]

theorem applyParam_js {v : Option (List Char)} (hok : decodesOk v) (st : AppState) :
    applyParam v setJs st = some { st with jsCode := paramUpd v st.jsCode } := by
  cases v with
  | none => simp [applyParam, truthy, paramUpd]
  | some l =>
    by_cases hl : l.isEmpty
    · have : l = [] := by simpa using hl
      subst this
      simp [applyParam, truthy, paramUpd]
    · obtain ⟨s, hs⟩ := hok
      have ht : truthy (some l) = true := by simp [truthy, hl]
      rw [applyParam, if_pos ht, paramUpd]
      simp [hl, hs, setJs]

theorem decodeStep_ok (uh uc uj : Option (List Char)) (st : AppState)
    (hg : (truthy uh || truthy uc || truthy uj) = true)
    (h1 : decodesOk uh) (h2 : decodesOk uc) (h3 : decodesOk uj) :
    decodeStep uh uc uj st =
      { st with htmlCode := paramUpd uh st.htmlCode, cssCode := paramUpd uc st.cssCode, jsCode := paramUpd uj st.jsCode } := by
  rw [decodeStep, if_pos hg]
  have e : tryDecodeAll uh uc uj st =
      some { st with htmlCode := paramUpd uh st.htmlCode, cssCode := paramUpd uc st.cssCode, jsCode := paramUpd uj st.jsCode } := by
    rw [tryDecodeAll, applyParam_html h1]
    simp only [Option.bind_eq_bind, Option.some_bind]
    rw [applyParam_css h2]
    simp only [Option.bind_eq_bind, Option.some_bind]
    rw [applyParam_js h3]
  rw [e]

theorem decodeParam_nil : decodeParam [] = some [] := rfl

-- a present parameter whose decoding throws
def paramFails : Option (List Char) → Prop := fun v => ∃ l, v = some l ∧ decodeParam l = none

theorem decodeParam_none_ne {l : List Char} (hd : decodeParam l = none) : l ≠ [] := by
  rintro rfl
  rw [decodeParam_nil] at hd
  exact absurd hd (by simp)

theorem paramFails_truthy {v : Option (List Char)} (h : paramFails v) : truthy v = true := by
  obtain ⟨l, rfl, hd⟩ := h
  exact truthy_some_ne (decodeParam_none_ne hd)

theorem applyParam_fail {l : List Char} (set : String → AppState → AppState)
    (st : AppState) (hd : decodeParam l = none) :
    applyParam (some l) set st = none := by
  rw [applyParam, if_pos (truthy_some_ne (decodeParam_none_ne hd))]
  simp [hd]

theorem tryDecodeAll_fail {uh uc uj : Option (List Char)} (st : AppState)
    (h : paramFails uh ∨ paramFails uc ∨ paramFails uj) :
    tryDecodeAll uh uc uj st = none := by
  rcases h with ⟨l, rfl, hd⟩ | ⟨l, rfl, hd⟩ | ⟨l, rfl, hd⟩
  · rw [tryDecodeAll, applyParam_fail _ _ hd]
    rfl
  · rw [tryDecodeAll]
    cases ha : applyParam uh setHtml st with
    | none => rfl
    | some st1 =>
      simp only [Option.bind_eq_bind, Option.some_bind]
      rw [applyParam_fail _ _ hd]
      rfl
  · rw [tryDecodeAll]
    cases ha : applyParam uh setHtml st with
    | none => rfl
    | some st1 =>
      simp only [Option.bind_eq_bind, Option.some_bind]
      cases hb : applyParam uc setCss st1 with
      | none => rfl
      | some st2 =>
        simp only [Option.bind_eq_bind, Option.some_bind]
        exact applyParam_fail _ _ hd

/-- Claim C2: for every query string in which at least one of the html/css/js
parameters is present and decoding a present parameter throws (malformed
base64 or invalid percent-escape), the decode effect leaves all three buffers
at exactly the default template's markup, style and script — never a mixed
state. -/
theorem claim_C2 (search : String) (st : AppState)
    (hfail : paramFails (getParam search.data ("html".data)) ∨
             paramFails (getParam search.data ("css".data)) ∨
             paramFails (getParam search.data ("js".data))) :
    (decodeFromSearch search st).htmlCode = TEMPLATES_default.html ∧
    (decodeFromSearch search st).cssCode = TEMPLATES_default.css ∧
    (decodeFromSearch search st).jsCode = TEMPLATES_default.js := by
  have hg : (truthy (getParam search.data ("html".data)) ||
      truthy (getParam search.data ("css".data)) ||
      truthy (getParam search.data ("js".data))) = true := by
    rcases hfail with h | h | h <;> simp [paramFails_truthy h]
  rw [decodeFromSearch, decodeStep, if_pos hg, tryDecodeAll_fail st hfail]
  exact ⟨rfl, rfl, rfl⟩

/-- Claim C2 witness: the malformed query "?html=%" resets all three buffers
to the default template. -/
theorem claim_C2_witness :
    (decodeFromSearch "?html=%" { htmlCode := "x", cssCode := "y", jsCode := "z", srcDoc := "" }).htmlCode = TEMPLATES_default.html ∧
    (decodeFromSearch "?html=%" { htmlCode := "x", cssCode := "y", jsCode := "z", srcDoc := "" }).cssCode = TEMPLATES_default.css ∧
    (decodeFromSearch "?html=%" { htmlCode := "x", cssCode := "y", jsCode := "z", srcDoc := "" }).jsCode = TEMPLATES_default.js :=
  claim_C2 "?html=%" _ (Or.inl ⟨['%'], by decide, by decide⟩)

/-- Claim C4: the composed document embeds the style text verbatim inside a
style-declaration region, the markup text verbatim as body content, and the
script text verbatim in an executable region, with the style region before
the markup and the script region after it. -/
theorem claim_C4 (m s j : String) :
    ∃ p1 p2 p3 p4 : String,
      fullSrcDoc m s j = p1 ++ s ++ p2 ++ m ++ p3 ++ j ++ p4 ∧
      (∃ a, p1 = a ++ "<style>") ∧
      (∃ b1 b2, p2 = "</style>" ++ b1 ++ "<body>" ++ b2) ∧
      (∃ e, p3 = e ++ "<script>") ∧
      (∃ d1 d2, p4 = "</script>" ++ d1 ++ "</body>" ++ d2) :=
  ⟨"\n      <!DOCTYPE html>\n      <html>\n      <head>\n        <style>",
   "</style>\n      </head>\n      <body>\n        ",
   "\n        <script>",
   "</script>\n      </body>\n      </html>\n    ",
   rfl,
   ⟨"\n      <!DOCTYPE html>\n      <html>\n      <head>\n        ", by decide⟩,
   ⟨"\n      </head>\n      ", "\n        ", by decide⟩,
   ⟨"\n        ", by decide⟩,
   ⟨"\n      ", "\n      </html>\n    ", by decide⟩⟩

/-- Claim C5 counterexample: "toString" is none of the three registry names,
yet the bracket lookup hits the inherited Object.prototype method, which is
truthy, so with the confirmation accepted all three buffers are overwritten
(with undefined) — loading an out-of-registry name is not always a
no-change operation. -/
theorem claim_C5_cex :
    (("toString" : String) ≠ "default" ∧ ("toString" : String) ≠ "simpleCard" ∧
      ("toString" : String) ≠ "flexboxExample") ∧
    loadTemplate "toString" true initialState ≠ buffersOf initialState := by
  exact ⟨⟨by decide, by decide, by decide⟩, by decide⟩

/-- Claim C5 (amended): for a name that is neither a registry key nor a
property inherited from Object.prototype, loading changes none of the three
buffers; for a registry template, declining the confirmation changes nothing
and accepting sets all three buffers together to exactly the template's
markup, style and script; for a name inherited from Object.prototype (such
as "toString") the lookup is truthy, so declining the prompt changes nothing
but accepting overwrites all three buffers together with undefined — never a
partial replacement in any case. -/
theorem claim_C5_amended (name : String) (confirm : Bool) (st : AppState) :
    (TEMPLATES name = TemplateLookup.undef →
      loadTemplate name confirm st = buffersOf st) ∧
    (∀ t, TEMPLATES name = TemplateLookup.own t → confirm = false →
      loadTemplate name confirm st = buffersOf st) ∧
    (∀ t, TEMPLATES name = TemplateLookup.own t → confirm = true →
      loadTemplate name confirm st =
        { htmlCode := some t.html, cssCode := some t.css, jsCode := some t.js }) ∧
    (TEMPLATES name = TemplateLookup.inherited → confirm = false →
      loadTemplate name confirm st = buffersOf st) ∧
    (TEMPLATES name = TemplateLookup.inherited → confirm = true →
      loadTemplate name confirm st =
        { htmlCode := none, cssCode := none, jsCode := none }) := by
  refine ⟨?_, ?_, ?_, ?_, ?_⟩
  · intro h
    rw [loadTemplate]
    by_cases he : name = ""
    · rw [if_pos he]
    · rw [if_neg he, h]
  · intro t h hc
    subst hc
    rw [loadTemplate]
    by_cases he : name = ""
    · rw [if_pos he]
    · rw [if_neg he, h]
      rfl
  · intro t h hc
    subst hc
    rw [loadTemplate]
    have he : name ≠ "" := by
      rintro rfl
      rw [show TEMPLATES "" = TemplateLookup.undef from rfl] at h
      exact absurd h (by simp)
    rw [if_neg he, h]
    rfl
  · intro h hc
    subst hc
    rw [loadTemplate]
    by_cases he : name = ""
    · rw [if_pos he]
    · rw [if_neg he, h]
      rfl
  · intro h hc
    subst hc
    rw [loadTemplate]
    have he : name ≠ "" := by
      rintro rfl
      rw [show TEMPLATES "" = TemplateLookup.undef from rfl] at h
      exact absurd h (by simp)
    rw [if_neg he, h]
    rfl

/-- Claim C5 witness: an unknown ordinary name is a no-op, declining
"simpleCard" is a no-op, accepting it replaces all three buffers with that
template, and accepting the inherited name "toString" overwrites all three
buffers with undefined. -/
theorem claim_C5_witness :
    loadTemplate "nope" true initialState = buffersOf initialState ∧
    loadTemplate "simpleCard" false initialState = buffersOf initialState ∧
    loadTemplate "simpleCard" true initialState =
      { htmlCode := some TEMPLATES_simpleCard.html, cssCode := some TEMPLATES_simpleCard.css, jsCode := some TEMPLATES_simpleCard.js } ∧
    loadTemplate "toString" true initialState =
      { htmlCode := none, cssCode := none, jsCode := none } :=
  ⟨(claim_C5_amended "nope" true initialState).1 (by decide),
   (claim_C5_amended "simpleCard" false initialState).2.1 TEMPLATES_simpleCard (by decide) rfl,
   (claim_C5_amended "simpleCard" true initialState).2.2.1 TEMPLATES_simpleCard (by decide) rfl,
   (claim_C5_amended "toString" true initialState).2.2.2.2 (by decide) rfl⟩

/-- Claim C6: when none of the html, css, js parameters is present in the
query string, the decode effect performs no decoding and leaves the state
holding the default template buffers unchanged. -/
theorem claim_C6 (search : String)
    (h1 : getParam search.data ("html".data) = none)
    (h2 : getParam search.data ("css".data) = none)
    (h3 : getParam search.data ("js".data) = none) :
    decodeFromSearch search initialState = initialState ∧
    initialState.htmlCode = TEMPLATES_default.html ∧
    initialState.cssCode = TEMPLATES_default.css ∧
    initialState.jsCode = TEMPLATES_default.js := by
  refine ⟨?_, rfl, rfl, rfl⟩
  rw [decodeFromSearch, h1, h2, h3]
  rfl

/-- Claim C6 witness: the empty query string has no parameters and decoding
it is a no-op on the default state. -/
theorem claim_C6_witness :
    decodeFromSearch "" initialState = initialState ∧
    initialState.htmlCode = TEMPLATES_default.html ∧
    initialState.cssCode = TEMPLATES_default.css ∧
    initialState.jsCode = TEMPLATES_default.js :=
  claim_C6 "" (by decide) (by decide) (by decide)

/-- Claim C9: the composed document is a pure, deterministic function of the
three buffers — two states agreeing on the buffers (whatever their other
state) produce byte-identical documents. -/
theorem claim_C9 (s1 s2 : AppState)
    (h1 : s1.htmlCode = s2.htmlCode) (h2 : s1.cssCode = s2.cssCode)
    (h3 : s1.jsCode = s2.jsCode) :
    (srcDocEffect s1).srcDoc = (srcDocEffect s2).srcDoc := by
  simp [srcDocEffect, fullSrcDoc, h1, h2, h3]

/-- Claim C9 witness: two states with the same buffers but different derived
document fields compose the same document. -/
theorem claim_C9_witness :
    (srcDocEffect { htmlCode := "m", cssCode := "s", jsCode := "j", srcDoc := "x" }).srcDoc =
    (srcDocEffect { htmlCode := "m", cssCode := "s", jsCode := "j", srcDoc := "y" }).srcDoc :=
  claim_C9 _ _ rfl rfl rfl

/-- Claim C10: a parameter present with an empty value behaves exactly like
an absent parameter in the decode effect, and the query "?html=&css=&js="
leaves all buffers at the default template. -/
theorem claim_C10 :
    (∀ uc uj st, decodeStep (some []) uc uj st = decodeStep none uc uj st) ∧
    (∀ uh uj st, decodeStep uh (some []) uj st = decodeStep uh none uj st) ∧
    (∀ uh uc st, decodeStep uh uc (some []) st = decodeStep uh uc none st) ∧
    decodeFromSearch "?html=&css=&js=" initialState = initialState := by
  refine ⟨fun uc uj st => rfl, fun uh uj st => ?_, fun uh uc st => ?_, by decide⟩
  · rw [decodeStep, decodeStep, tryDecodeAll, tryDecodeAll]
    rfl
  · rw [decodeStep, decodeStep, tryDecodeAll, tryDecodeAll]
    rfl

/-- Claim C8: when at least one parameter is present and every present
parameter decodes without throwing, decode overwrites only the buffers whose
parameters are present (a present, nonempty parameter becomes the decoded
text), and a buffer whose parameter is absent keeps its prior value. -/
theorem claim_C8 (search : String) (st : AppState)
    (hp : (truthy (getParam search.data ("html".data)) ||
           truthy (getParam search.data ("css".data)) ||
           truthy (getParam search.data ("js".data))) = true)
    (h1 : decodesOk (getParam search.data ("html".data)))
    (h2 : decodesOk (getParam search.data ("css".data)))
    (h3 : decodesOk (getParam search.data ("js".data))) :
    ((getParam search.data ("html".data) = none →
        (decodeFromSearch search st).htmlCode = st.htmlCode) ∧
     (∀ l s, getParam search.data ("html".data) = some l → l ≠ [] →
        decodeParam l = some s → (decodeFromSearch search st).htmlCode = String.mk s)) ∧
    ((getParam search.data ("css".data) = none →
        (decodeFromSearch search st).cssCode = st.cssCode) ∧
     (∀ l s, getParam search.data ("css".data) = some l → l ≠ [] →
        decodeParam l = some s → (decodeFromSearch search st).cssCode = String.mk s)) ∧
    ((getParam search.data ("js".data) = none →
        (decodeFromSearch search st).jsCode = st.jsCode) ∧
     (∀ l s, getParam search.data ("js".data) = some l → l ≠ [] →
        decodeParam l = some s → (decodeFromSearch search st).jsCode = String.mk s)) := by
  rw [decodeFromSearch, decodeStep_ok _ _ _ st hp h1 h2 h3]
  refine ⟨⟨?_, ?_⟩, ⟨?_, ?_⟩, ⟨?_, ?_⟩⟩
  · intro h
    rw [h]
    rfl
  · intro l s hl hne hdec
    have he : l.isEmpty = false := by simp [hne]
    rw [hl]
    simp [paramUpd, he, hdec]
  · intro h
    rw [h]
    rfl
  · intro l s hl hne hdec
    have he : l.isEmpty = false := by simp [hne]
    rw [hl]
    simp [paramUpd, he, hdec]
  · intro h
    rw [h]
    rfl
  · intro l s hl hne hdec
    have he : l.isEmpty = false := by simp [hne]
    rw [hl]
    simp [paramUpd, he, hdec]

/-- Claim C8 witness: "?css=YQ%3D%3D" overwrites only the style buffer (with
the decoded text "a"); the markup and script buffers keep their prior
values. -/
theorem claim_C8_witness :
    (decodeFromSearch "?css=YQ%3D%3D" { htmlCode := "x", cssCode := "y", jsCode := "z", srcDoc := "" }).htmlCode = "x" ∧
    (decodeFromSearch "?css=YQ%3D%3D" { htmlCode := "x", cssCode := "y", jsCode := "z", srcDoc := "" }).cssCode = String.mk ("a".data) ∧
    (decodeFromSearch "?css=YQ%3D%3D" { htmlCode := "x", cssCode := "y", jsCode := "z", srcDoc := "" }).jsCode = "z" := by
  have hcss : getParam ("?css=YQ%3D%3D").data ("css".data) = some ['Y', 'Q', '=', '='] := by
    decide
  have h := claim_C8 "?css=YQ%3D%3D" { htmlCode := "x", cssCode := "y", jsCode := "z", srcDoc := "" }
    (by decide)
    (by rw [show getParam ("?css=YQ%3D%3D").data ("html".data) = none from by decide]; trivial)
    (by rw [hcss]; exact ⟨"a".data, by decide⟩)
    (by rw [show getParam ("?css=YQ%3D%3D").data ("js".data) = none from by decide]; trivial)
  exact ⟨h.1.1 (by decide), h.2.1.2 ['Y', 'Q', '=', '='] ("a".data) hcss (by decide) (by decide),
    h.2.2.1 (by decide)⟩

theorem generateShareUrl_shareSearch (origin : String) (st : AppState) :
    generateShareUrl origin st = (shareSearch st).map (fun q => origin ++ "/" ++ q) := by
  rw [generateShareUrl, shareSearch]
  cases btoaChars st.htmlCode.data with
  | none => rfl
  | some e1 =>
    cases btoaChars st.cssCode.data with
    | none => rfl
    | some e2 =>
      cases btoaChars st.jsCode.data with
      | none => rfl
      | some e3 =>
        simp only [Option.bind_eq_bind, Option.some_bind, Option.map_some']
        congr 1
        apply String.ext
        simp [String.data_append, List.append_assoc]

theorem decodeParam_b64 {s : List Char} (h : ∀ c ∈ s, c.toNat < 256) :
    decodeParam (encodeB64 (s.map Char.toNat)) = some s := by
  have hb : ∀ b ∈ s.map Char.toNat, b < 256 := by
    intro b hbm
    rcases List.mem_map.mp hbm with ⟨c, hc, rfl⟩
    exact h c hc
  rw [decodeParam, decURIChars_no_pct (encodeB64_no_pct hb)]
  simp only [Option.bind_eq_bind, Option.some_bind]
  exact atob_btoa h

/-- Claim C1 (amended): for every state whose three buffers are nonempty and
within the single-byte range supported by btoa, decoding the query component
of the generated share URL recovers exactly the original triple, whatever
buffers were loaded at decode time.  (The unamended claim also demanded this
for empty buffers; the truthiness guard of the decode effect instead leaves
such a buffer at its prior value, see the counterexample.) -/
theorem claim_C1_amended (st0 st : AppState)
    (hh : ∀ c ∈ st0.htmlCode.data, c.toNat < 256)
    (hc : ∀ c ∈ st0.cssCode.data, c.toNat < 256)
    (hj : ∀ c ∈ st0.jsCode.data, c.toNat < 256)
    (n1 : st0.htmlCode ≠ "") (n2 : st0.cssCode ≠ "") (n3 : st0.jsCode ≠ "") :
    ∃ q : String,
      shareSearch st0 = some q ∧
      (decodeFromSearch q st).htmlCode = st0.htmlCode ∧
      (decodeFromSearch q st).cssCode = st0.cssCode ∧
      (decodeFromSearch q st).jsCode = st0.jsCode := by
  have hb1 : ∀ b ∈ st0.htmlCode.data.map Char.toNat, b < 256 := by
    intro b hbm; rcases List.mem_map.mp hbm with ⟨c, hcm, rfl⟩; exact hh c hcm
  have hb2 : ∀ b ∈ st0.cssCode.data.map Char.toNat, b < 256 := by
    intro b hbm; rcases List.mem_map.mp hbm with ⟨c, hcm, rfl⟩; exact hc c hcm
  have hb3 : ∀ b ∈ st0.jsCode.data.map Char.toNat, b < 256 := by
    intro b hbm; rcases List.mem_map.mp hbm with ⟨c, hcm, rfl⟩; exact hj c hcm
  have ha1 : ∀ ch ∈ encURIChars (encodeB64 (st0.htmlCode.data.map Char.toNat)), ch ≠ '&' :=
    fun ch hm => (encURI_ne_special ch hm).1
  have ha2 : ∀ ch ∈ encURIChars (encodeB64 (st0.cssCode.data.map Char.toNat)), ch ≠ '&' :=
    fun ch hm => (encURI_ne_special ch hm).1
  have ha3 : ∀ ch ∈ encURIChars (encodeB64 (st0.jsCode.data.map Char.toNat)), ch ≠ '&' :=
    fun ch hm => (encURI_ne_special ch hm).1
  obtain ⟨g1, g2, g3⟩ := getParam_canonical
    (encURIChars (encodeB64 (st0.htmlCode.data.map Char.toNat)))
    (encURIChars (encodeB64 (st0.cssCode.data.map Char.toNat)))
    (encURIChars (encodeB64 (st0.jsCode.data.map Char.toNat))) ha1 ha2 ha3
  have hfu1 : formUrlDecode (encURIChars (encodeB64 (st0.htmlCode.data.map Char.toNat))) =
      encodeB64 (st0.htmlCode.data.map Char.toNat) := formUrl_encURI (encodeB64_ascii hb1)
  have hfu2 : formUrlDecode (encURIChars (encodeB64 (st0.cssCode.data.map Char.toNat))) =
      encodeB64 (st0.cssCode.data.map Char.toNat) := formUrl_encURI (encodeB64_ascii hb2)
  have hfu3 : formUrlDecode (encURIChars (encodeB64 (st0.jsCode.data.map Char.toNat))) =
      encodeB64 (st0.jsCode.data.map Char.toNat) := formUrl_encURI (encodeB64_ascii hb3)
  have hne1 : encodeB64 (st0.htmlCode.data.map Char.toNat) ≠ [] :=
    encodeB64_ne_nil (by simp [str_data_ne n1])
  have hne2 : encodeB64 (st0.cssCode.data.map Char.toNat) ≠ [] :=
    encodeB64_ne_nil (by simp [str_data_ne n2])
  have hne3 : encodeB64 (st0.jsCode.data.map Char.toNat) ≠ [] :=
    encodeB64_ne_nil (by simp [str_data_ne n3])
  have hd1 := decodeParam_b64 hh
  have hd2 := decodeParam_b64 hc
  have hd3 := decodeParam_b64 hj
  have hemp1 : (encodeB64 (st0.htmlCode.data.map Char.toNat)).isEmpty = false := by
    simp [hne1]
  have hemp2 : (encodeB64 (st0.cssCode.data.map Char.toNat)).isEmpty = false := by
    simp [hne2]
  have hemp3 : (encodeB64 (st0.jsCode.data.map Char.toNat)).isEmpty = false := by
    simp [hne3]
  refine ⟨_, shareSearch_some hh hc hj, ?_, ?_, ?_⟩ <;>
    (rw [decodeFromSearch, shareSearch_data]
     simp only [canonQ]
     rw [g1, g2, g3, hfu1, hfu2, hfu3,
       decodeStep_ok (some (encodeB64 (st0.htmlCode.data.map Char.toNat)))
         (some (encodeB64 (st0.cssCode.data.map Char.toNat)))
         (some (encodeB64 (st0.jsCode.data.map Char.toNat))) st
         (by simp [truthy_some_ne hne1])
         ⟨st0.htmlCode.data, hd1⟩ ⟨st0.cssCode.data, hd2⟩ ⟨st0.jsCode.data, hd3⟩]
     simp [paramUpd, hemp1, hemp2, hemp3, hd1, hd2, hd3, strMk_data])

/-- Claim C1 counterexample: for the triple ("a", "", ""), decoding the query
of the generated share URL does not recover the triple — the empty-valued
css and js parameters are falsy, so those buffers keep the default template
instead of becoming empty. -/
theorem claim_C1_cex :
    shareSearch { htmlCode := "a", cssCode := "", jsCode := "", srcDoc := "" } =
      some "?html=YQ%3D%3D&css=&js=" ∧
    decodeFromSearch "?html=YQ%3D%3D&css=&js=" initialState ≠
      { initialState with htmlCode := "a", cssCode := "", jsCode := "" } := by
  constructor
  · decide
  · decide

/-- Claim C1 witness: the spec's concrete scenario — the triple
("<p>hi</p>", "p{color:red}", "console.log(1)") survives the
encode/decode round trip exactly. -/
theorem claim_C1_witness :
    ∃ q : String,
      shareSearch { htmlCode := "<p>hi</p>", cssCode := "p\x7bcolor:red\x7d", jsCode := "console.log(1)", srcDoc := "" } = some q ∧
      (decodeFromSearch q initialState).htmlCode = "<p>hi</p>" ∧
      (decodeFromSearch q initialState).cssCode = "p\x7bcolor:red\x7d" ∧
      (decodeFromSearch q initialState).jsCode = "console.log(1)" :=
  claim_C1_amended
    { htmlCode := "<p>hi</p>", cssCode := "p\x7bcolor:red\x7d", jsCode := "console.log(1)", srcDoc := "" }
    initialState (by decide) (by decide) (by decide) (by decide) (by decide) (by decide)

/-- Claim C3 counterexample: encoding a buffer containing "€" (U+20AC, outside
the single-byte range) throws — btoa raises InvalidCharacterError, so no
share URL is produced. -/
theorem claim_C3_cex :
    generateShareUrl "https://example.test"
      { htmlCode := "€", cssCode := "", jsCode := "", srcDoc := "" } = none := by
  decide

/-- Claim C3 (amended): the encode operation does not throw exactly on buffers
whose characters all fit a single byte; within that range a share URL is
always produced.  (The unamended claim also demanded this for arbitrary
Unicode; btoa instead throws there, see the counterexample.) -/
theorem claim_C3_amended (origin : String) (st : AppState)
    (hh : ∀ c ∈ st.htmlCode.data, c.toNat < 256)
    (hc : ∀ c ∈ st.cssCode.data, c.toNat < 256)
    (hj : ∀ c ∈ st.jsCode.data, c.toNat < 256) :
    ∃ url, generateShareUrl origin st = some url := by
  rw [generateShareUrl, btoa_some hh, btoa_some hc, btoa_some hj]
  exact ⟨_, rfl⟩

/-- Claim C3 witness: the default template (all ASCII) encodes without
throwing. -/
theorem claim_C3_witness :
    ∃ url, generateShareUrl "https://example.test" initialState = some url :=
  claim_C3_amended "https://example.test" initialState (by decide) (by decide) (by decide)

/-- Claim C7 counterexample: for a buffer outside the single-byte range the
encode operation produces no URL at all (btoa throws), so the claim's
universal "for every triple" fails. -/
theorem claim_C7_cex :
    generateShareUrl "https://example.test"
      { htmlCode := "", cssCode := "€", jsCode := "", srcDoc := "" } = none := by
  decide

/-- Claim C7 (amended): for every state whose buffers are within the
single-byte range, the encode operation produces a complete absolute URL of
the exact form origin/?html=..&css=..&js=.. with the parameters in that fixed
order, and an empty buffer still contributes its (empty-valued) parameter. -/
theorem claim_C7_amended (origin : String) (st : AppState)
    (hh : ∀ c ∈ st.htmlCode.data, c.toNat < 256)
    (hc : ∀ c ∈ st.cssCode.data, c.toNat < 256)
    (hj : ∀ c ∈ st.jsCode.data, c.toNat < 256) :
    ∃ e1 e2 e3 : String,
      generateShareUrl origin st =
        some (origin ++ "/?html=" ++ e1 ++ "&css=" ++ e2 ++ "&js=" ++ e3) ∧
      (st.htmlCode = "" → e1 = "") ∧
      (st.cssCode = "" → e2 = "") ∧
      (st.jsCode = "" → e3 = "") := by
  refine ⟨String.mk (encURIChars (encodeB64 (st.htmlCode.data.map Char.toNat))),
    String.mk (encURIChars (encodeB64 (st.cssCode.data.map Char.toNat))),
    String.mk (encURIChars (encodeB64 (st.jsCode.data.map Char.toNat))), ?_, ?_, ?_, ?_⟩
  · rw [generateShareUrl, btoa_some hh, btoa_some hc, btoa_some hj]
    rfl
  · intro h
    rw [h]
    rfl
  · intro h
    rw [h]
    rfl
  · intro h
    rw [h]
    rfl

/-- Claim C7 witness: a triple with an empty style and script buffer still
yields all three parameters, the empty ones with empty values. -/
theorem claim_C7_witness :
    ∃ e1 e2 e3 : String,
      generateShareUrl "o" { htmlCode := "a", cssCode := "", jsCode := "", srcDoc := "" } =
        some ("o" ++ "/?html=" ++ e1 ++ "&css=" ++ e2 ++ "&js=" ++ e3) ∧
      (("a" : String) = "" → e1 = "") ∧
      (("" : String) = "" → e2 = "") ∧
      (("" : String) = "" → e3 = "") :=
  claim_C7_amended "o" { htmlCode := "a", cssCode := "", jsCode := "", srcDoc := "" }
    (by decide) (by decide) (by decide)
